import Mathlib

/-!
# Order service (`microservices/order-service/main.go`)

A shallow embedding of the order-creation path of the order service: the
package-level store (`orders`, `nextOrderID`), the dependency shims
`callUserService` and `callProductService`, the handlers `createOrder` and
`getOrder`, and the instrumentation wrapper `prometheusMiddleware` with its
`responseWriter`.

Conventions of the embedding.

* Go `int` values are `Int`.  The only arithmetic on them is `nextOrderID++`;
  the counter grows by one per appended order, and a slice of `Order` values
  cannot reach `2^63` elements, so the increment never wraps.
* Go `float64` values are modelled exactly (type `F64` below): the values that
  occur are non-negative, so the model carries the non-negative finite doubles
  and `+Inf`, with round-to-nearest, ties-to-even addition.
* `time.Now().Format(time.RFC3339)` is an input `now : String` of the handler.
* Tracing spans and the simulated network delays have no effect on control
  flow or on the store and are left out.
* Calls to the dependency shims and to the business metrics are recorded as a
  list of `Event`s, in program order.
-/

namespace OrderService

/-! ## float64 -/

/-- Non-negative `float64` values.  `fin u` is the finite double of value
`u * 2^(-1074)` (every finite double is an integer multiple of the smallest
subnormal `2^(-1074)`); `inf` is `+Inf`. -/
inductive F64 where
  | fin (units : Nat)
  | inf
  deriving DecidableEq, Repr

namespace F64

/-- The number of halvings that bring `q` below `2^53`, at most `fuel`: the
binary exponent of `q` in excess of a 53-bit significand. -/
def excessBits : Nat → Nat → Nat
  | 0, _ => 0
  | fuel + 1, q => if q < 2 ^ 53 then 0 else excessBits fuel (q / 2) + 1

/-- Round the exact non-negative rational `num / den` (in units of `2^(-1074)`)
to the nearest double, ties to even; results of magnitude `2^1024` or more
become `+Inf`. -/
def round (num den : Nat) : F64 :=
  let s := excessBits 2048 (num / den)
  let d := den * 2 ^ s
  let q := num / d
  let r := num % d
  let q1 := if d < 2 * r ∨ (2 * r = d ∧ q % 2 = 1) then q + 1 else q
  if 2 ^ 2098 ≤ q1 * 2 ^ s then inf else fin (q1 * 2 ^ s)

/-- The double denoted by the decimal constant `num / den` (Go converts an
untyped constant to `float64` by rounding to nearest, ties to even). -/
def lit (num den : Nat) : F64 :=
  round (num * 2 ^ 1074) den

/-- The zero value of `float64`. -/
def zero : F64 := fin 0

/-- IEEE 754 addition `x + y` on non-negative doubles. -/
def add : F64 → F64 → F64
  | fin a, fin b => round (a + b) 1
  | _, _ => inf

end F64

/-! ## Data model -/

/-- The `Order` struct. -/
structure Order where
  ID : Int
  UserID : Int
  Products : List Int
  Total : F64
  Status : String
  Created : String
  deriving DecidableEq, Repr

/-- The `CreateOrderRequest` struct. -/
structure CreateOrderRequest where
  UserID : Int
  Products : List Int
  deriving DecidableEq, Repr

/-- The package-level variables `orders` and `nextOrderID`. -/
structure Store where
  orders : List Order
  nextOrderID : Int
  deriving DecidableEq, Repr

/-- The initial values of `orders` and `nextOrderID`. -/
def seed : Store where
  orders :=
    [ { ID := 1, UserID := 1, Products := [1, 2], Total := F64.lit 101598 100,
        Status := "completed", Created := "2024-01-15T10:30:00Z" },
      { ID := 2, UserID := 2, Products := [3], Total := F64.lit 2999 100,
        Status := "pending", Created := "2024-01-15T11:15:00Z" } ]
  nextOrderID := 3

/-- Calls made by `createOrder` to its dependency shims and to the business
metrics `ordersTotal` (counter) and `orderValue` (histogram). -/
inductive Event where
  | callUserService (userID : Int)
  | callProductService (productID : Int)
  | ordersTotalInc (status : String)
  | orderValueObserve (status : String) (value : F64)
  deriving DecidableEq, Repr

/-- What a handler writes to its `http.ResponseWriter`. -/
inductive Response where
  /-- The call `http.Error(w, msg, code)`. -/
  | error (msg : String) (code : Int)
  /-- Content type `application/json`, status `code`, body the encoded order.
  `code` is the argument of `WriteHeader`, or 200 when the handler writes the
  body without calling it. -/
  | json (code : Int) (order : Order)
  deriving DecidableEq, Repr

/-- The status code of a response. -/
def Response.code : Response → Int
  | .error _ c => c
  | .json c _ => c

def StatusOK : Int := 200
def StatusCreated : Int := 201
def StatusBadRequest : Int := 400
def StatusNotFound : Int := 404

/-! ## Dependency shims -/

/-- Function `callUserService`: the user exists iff its ID is positive. -/
def callUserService (userID : Int) : Except String Unit :=
  if userID ≤ 0 then .error "user not found" else .ok ()

/-- The map literal `prices` of `callProductService`. -/
def prices : List (Int × F64) :=
  [(1, F64.lit 99999 100), (2, F64.lit 1599 100), (3, F64.lit 2999 100), (4, F64.lit 19999 100)]

/-- Function `callProductService`: the price of the product in the table. -/
def callProductService (productID : Int) : Except String F64 :=
  match prices.lookup productID with
  | some price => .ok price
  | none => .error "product not found"

/-! ## Handlers -/

/-- Outcome of the loop over `req.Products`. -/
inductive LoopResult where
  /-- The loop ran to its end with this value of `total`. -/
  | completed (total : F64)
  /-- The loop returned early at this `productID`. -/
  | aborted (productID : Int)
  deriving DecidableEq, Repr

/-- The loop `for _, productID := range req.Products` of `createOrder`, entered
with the running `total`: its outcome and the shim calls it made. -/
def priceLoop (total : F64) : List Int → LoopResult × List Event
  | [] => (.completed total, [])
  | productID :: rest =>
    match callProductService productID with
    | .error _ => (.aborted productID, [.callProductService productID])
    | .ok price =>
      let r := priceLoop (total.add price) rest
      (r.1, .callProductService productID :: r.2)

/-- What one run of a handler leaves behind. -/
structure Outcome where
  store : Store
  response : Response
  events : List Event
  deriving DecidableEq, Repr

/-- Handler `createOrder`.  `body` is the result of decoding the request body
(`none` when `Decode` fails) and `now` the formatted clock reading. -/
def createOrder (s : Store) (body : Option CreateOrderRequest) (now : String) : Outcome :=
  match body with
  | none => ⟨s, .error "Invalid request body" StatusBadRequest, []⟩
  | some req =>
    match callUserService req.UserID with
    | .error _ => ⟨s, .error "User not found" StatusBadRequest, [.callUserService req.UserID]⟩
    | .ok _ =>
      match priceLoop F64.zero req.Products with
      | (.aborted productID, calls) =>
        ⟨s, .error ("Product " ++ toString productID ++ " not found") StatusBadRequest,
          .callUserService req.UserID :: calls⟩
      | (.completed total, calls) =>
        let order : Order :=
          { ID := s.nextOrderID, UserID := req.UserID, Products := req.Products,
            Total := total, Status := "pending", Created := now }
        ⟨{ orders := s.orders ++ [order], nextOrderID := s.nextOrderID + 1 },
          .json StatusCreated order,
          .callUserService req.UserID :: calls ++
            [.ordersTotalInc order.Status, .orderValueObserve order.Status order.Total]⟩

/-- Handler `getOrder`.  `id` is the result of `strconv.Atoi(vars["id"])`
(`none` when it fails).  The first stored order with that ID is returned. -/
def getOrder (s : Store) (id : Option Int) : Response :=
  match id with
  | none => .error "Invalid order ID" StatusBadRequest
  | some id =>
    match s.orders.find? (fun order => order.ID == id) with
    | some order => .json StatusOK order
    | none => .error "Order not found" StatusNotFound

/-! ## Specification vocabulary -/

/-- The product IDs present in the price table. -/
def priceKeys : List Int := prices.map Prod.fst

/-- The price `callProductService` returns for `productID` added to `total`
(`total` itself when the product is not found). -/
def addPrice (total : F64) (productID : Int) : F64 :=
  match callProductService productID with
  | .ok price => total.add price
  | .error _ => total

/-- The left-to-right sum, starting from 0, of the prices of `ids`. -/
def sumPrices (ids : List Int) : F64 :=
  ids.foldl addPrice F64.zero

/-- The order `createOrder` builds for `req` in store `s` at time `now`. -/
def newOrder (s : Store) (req : CreateOrderRequest) (now : String) : Order :=
  { ID := s.nextOrderID, UserID := req.UserID, Products := req.Products,
    Total := sumPrices req.Products, Status := "pending", Created := now }

/-- Event tests: which shim or metric an event belongs to. -/
def Event.isUserCall : Event → Bool
  | .callUserService _ => true
  | _ => false

def Event.isProductCall : Event → Bool
  | .callProductService _ => true
  | _ => false

def Event.isOrdersTotal : Event → Bool
  | .ordersTotalInc _ => true
  | _ => false

def Event.isOrderValue : Event → Bool
  | .orderValueObserve _ _ => true
  | _ => false

/-- A sequence of `createOrder` calls run one after the other from store `s`,
each given by its decoded body and its clock reading: the final store and the
responses in call order. -/
def run (s : Store) : List (Option CreateOrderRequest × String) → Store × List Response
  | [] => (s, [])
  | call :: rest =>
    let r := createOrder s call.1 call.2
    let t := run r.store rest
    (t.1, r.response :: t.2)

/-- The orders returned by the successful creations among `rs`, in call order. -/
def createdOrders (rs : List Response) : List Order :=
  rs.filterMap fun r =>
    match r with
    | .json code order => if code = StatusCreated then some order else none
    | .error _ _ => none

/-- The stores reachable from the seed data by `createOrder` calls. -/
def Reachable (s : Store) : Prop :=
  ∃ calls, (run seed calls).1 = s

/-- Stored IDs are pairwise distinct and below the counter. -/
def Store.Inv (s : Store) : Prop :=
  (s.orders.map Order.ID).Nodup ∧ ∀ o ∈ s.orders, o.ID < s.nextOrderID

/-! ## Overlapping calls

`net/http` runs every request in its own goroutine, so several `createOrder`
calls can be in flight at once; the handler takes no lock.  A call in flight is
a `Thread`; its accesses to the package-level variables happen in three
statements, each taken here as one indivisible step: building the order reads
`nextOrderID`, `orders = append(orders, order)` writes `orders`, and
`nextOrderID++` writes the counter. -/

/-- A `createOrder` call in flight on a decoded request. -/
inductive Thread where
  /-- Request decoded, nothing else done yet. -/
  | ready (req : CreateOrderRequest) (now : String)
  /-- The `Order` literal has been built (`nextOrderID` has been read). -/
  | built (order : Order)
  /-- The order has been appended to `orders`. -/
  | appended (order : Order)
  /-- The handler has returned with this response. -/
  | done (response : Response)
  deriving DecidableEq, Repr

/-- The next step of a call: validation, the price loop and the `Order`
literal; then the append; then the increment, the metrics and the response. -/
def Thread.step (s : Store) : Thread → Store × Thread
  | .ready req now =>
    match callUserService req.UserID with
    | .error _ => (s, .done (.error "User not found" StatusBadRequest))
    | .ok _ =>
      match (priceLoop F64.zero req.Products).1 with
      | .aborted productID =>
        (s, .done (.error ("Product " ++ toString productID ++ " not found") StatusBadRequest))
      | .completed total =>
        (s, .built { ID := s.nextOrderID, UserID := req.UserID, Products := req.Products,
                     Total := total, Status := "pending", Created := now })
  | .built order => ({ s with orders := s.orders ++ [order] }, .appended order)
  | .appended order =>
    ({ s with nextOrderID := s.nextOrderID + 1 }, .done (.json StatusCreated order))
  | .done response => (s, .done response)

/-- The store together with the calls in flight. -/
structure System where
  store : Store
  threads : List Thread
  deriving DecidableEq, Repr

/-- Thread `i` takes its next step (nothing happens when there is no thread `i`). -/
def System.step (sys : System) (i : Nat) : System :=
  match sys.threads[i]? with
  | none => sys
  | some t => ⟨(t.step sys.store).1, sys.threads.set i (t.step sys.store).2⟩

/-- Run the threads in the order given by `schedule`. -/
def System.exec (sys : System) (schedule : List Nat) : System :=
  schedule.foldl System.step sys

/-- The calls `reqs`, all decoded and about to start, on store `s`. -/
def System.init (s : Store) (reqs : List (CreateOrderRequest × String)) : System :=
  ⟨s, reqs.map fun r => .ready r.1 r.2⟩

/-- The schedule that runs threads `k, k + 1, ..., k + n - 1` one after the
other, each through its three steps before the next one starts. -/
def serial (k : Nat) : Nat → List Nat
  | 0 => []
  | n + 1 => k :: k :: k :: serial (k + 1) n

/-- The ID of the order a finished call created, if it created one. -/
def Thread.createdID : Thread → Option Int
  | .done (.json code order) => if code = StatusCreated then some order.ID else none
  | _ => none

/-! ## Instrumentation middleware -/

/-- A call on an `http.ResponseWriter`. -/
inductive Call where
  /-- The call `w.Header().Set(key, value)`. -/
  | setHeader (key value : String)
  /-- The call `w.WriteHeader(code)`. -/
  | writeHeader (code : Int)
  /-- The call `w.Write(data)`. -/
  | write (data : String)
  /-- A call of the method `name`, which is not in the interface
  `http.ResponseWriter` (`Flush` of `http.Flusher`, for one). -/
  | extra (name : String)
  deriving DecidableEq, Repr

/-- An `http.ResponseWriter` with internal state `σ`.  `Write` returns the new
state, the number of bytes written and whether it failed.  `Extra name` is the
method `name` of the writer's dynamic type outside the interface (`Flush` of
`http.Flusher`, for one), as its effect on the writer, when the dynamic type
has such a method. -/
structure http.ResponseWriter (σ : Type) where
  SetHeader : String → String → σ → σ
  WriteHeader : Int → σ → σ
  Write : String → σ → σ × Nat × Bool
  Extra : String → Option (σ → σ)

/-- The behaviour of an `http.Handler` on one request: the calls it makes on
its response writer, each `Write` followed by what the handler does with the
result of the call, up to the point where it returns or panics. -/
inductive http.Handler where
  /-- The handler returns. -/
  | done
  /-- The handler panics. -/
  | panic
  | setHeader (key value : String) (next : http.Handler)
  | writeHeader (code : Int) (next : http.Handler)
  | write (data : String) (next : Nat → Bool → http.Handler)
  /-- The type assertion `_, ok := w.(I)` for an interface `I` with the method
  `name`, followed by what the handler does with `ok`. -/
  | hasMethod (name : String) (next : Bool → http.Handler)
  /-- The call `w.(I).name()`: it panics when the dynamic type of `w` has no
  method `name`. -/
  | callMethod (name : String) (next : http.Handler)

/-- How a handler run ended: the state of the writer, and whether the run
ended in a panic rather than a return. -/
structure Served (σ : Type) where
  writer : σ
  panicked : Bool

/-- Run a handler on writer `w` in state `s`. -/
def http.Handler.ServeHTTP {σ : Type} (w : http.ResponseWriter σ) :
    http.Handler → σ → Served σ
  | .done, s => ⟨s, false⟩
  | .panic, s => ⟨s, true⟩
  | .setHeader key value next, s => next.ServeHTTP w (w.SetHeader key value s)
  | .writeHeader code next, s => next.ServeHTTP w (w.WriteHeader code s)
  | .write data next, s =>
    (next (w.Write data s).2.1 (w.Write data s).2.2).ServeHTTP w (w.Write data s).1
  | .hasMethod name next, s => (next (w.Extra name).isSome).ServeHTTP w s
  | .callMethod name next, s =>
    match w.Extra name with
    | some f => next.ServeHTTP w (f s)
    | none => ⟨s, true⟩

/-- The calls a handler makes on writer `w` started in state `s`, in order. -/
def http.Handler.calls {σ : Type} (w : http.ResponseWriter σ) : http.Handler → σ → List Call
  | .done, _ => []
  | .panic, _ => []
  | .setHeader key value next, s => .setHeader key value :: next.calls w (w.SetHeader key value s)
  | .writeHeader code next, s => .writeHeader code :: next.calls w (w.WriteHeader code s)
  | .write data next, s =>
    .write data :: (next (w.Write data s).2.1 (w.Write data s).2.2).calls w (w.Write data s).1
  | .hasMethod name next, s => (next (w.Extra name).isSome).calls w s
  | .callMethod name next, s =>
    match w.Extra name with
    | some f => .extra name :: next.calls w (f s)
    | none => []

/-- The struct `responseWriter`: the embedded writer and the captured status. -/
structure responseWriter (σ : Type) where
  ResponseWriter : σ
  statusCode : Int

/-- The method set of `*responseWriter` over the embedded writer `w`:
`WriteHeader` is the declared method, `Header` and `Write` are promoted from the
embedded interface field, and there is no other method. -/
def responseWriter.methods {σ : Type} (w : http.ResponseWriter σ) :
    http.ResponseWriter (responseWriter σ) where
  SetHeader key value rw := { rw with ResponseWriter := w.SetHeader key value rw.ResponseWriter }
  WriteHeader code rw :=
    { ResponseWriter := w.WriteHeader code rw.ResponseWriter, statusCode := code }
  Write data rw :=
    ({ rw with ResponseWriter := (w.Write data rw.ResponseWriter).1 },
      (w.Write data rw.ResponseWriter).2)
  Extra _ := none

/-- Observations on the HTTP metrics `httpRequestDuration` and
`httpRequestsTotal`. -/
inductive Metric where
  | httpRequestDurationObserve (method endpoint : String) (seconds : F64)
  | httpRequestsTotalInc (method endpoint status : String)
  deriving DecidableEq, Repr

/-- What one request leaves behind after the middleware: the state of the
underlying writer, the metric observations made, and whether the handler's
panic went through. -/
structure Instrumented (σ : Type) where
  writer : σ
  metrics : List Metric
  panicked : Bool

/-- Function `prometheusMiddleware`, applied to handler `next`, on a request
with the given method and path, writer `w` in state `s`; `duration` is the
elapsed time read after the handler returned.  The two metric statements
follow the call `next.ServeHTTP(wrapped, r)` and are not deferred: a panic of
the handler leaves the function before they run. -/
def prometheusMiddleware {σ : Type} (next : http.Handler) (w : http.ResponseWriter σ)
    (method path : String) (duration : F64) (s : σ) : Instrumented σ :=
  let wrapped := next.ServeHTTP (responseWriter.methods w)
    { ResponseWriter := s, statusCode := StatusOK }
  if wrapped.panicked then
    ⟨wrapped.writer.ResponseWriter, [], true⟩
  else
    ⟨wrapped.writer.ResponseWriter,
      [.httpRequestDurationObserve method path duration,
       .httpRequestsTotalInc method path (toString wrapped.writer.statusCode)],
      false⟩

/-- A writer that behaves as `w` and keeps the list of the calls it received. -/
def recording {σ : Type} (w : http.ResponseWriter σ) : http.ResponseWriter (σ × List Call) where
  SetHeader key value s := (w.SetHeader key value s.1, s.2 ++ [.setHeader key value])
  WriteHeader code s := (w.WriteHeader code s.1, s.2 ++ [.writeHeader code])
  Write data s := (((w.Write data s.1).1, s.2 ++ [.write data]), (w.Write data s.1).2)
  Extra name := (w.Extra name).map fun f s => (f s.1, s.2 ++ [.extra name])

/-- A writer without state that takes every write in full and has no method
outside the interface. -/
def discard : http.ResponseWriter Unit where
  SetHeader _ _ s := s
  WriteHeader _ s := s
  Write data s := (s, data.length, false)
  Extra _ := none

end OrderService

/-! # Product service (`microservices/product-service/main.go`)

The fixture data of the product service and its handler `getProduct`, under
the same conventions as above. -/

namespace ProductService

/-- The `Product` struct. -/
structure Product where
  ID : Int
  Name : String
  Description : String
  Price : OrderService.F64
  Category : String
  deriving DecidableEq, Repr

/-- The package-level variable `products`. -/
def products : List Product :=
  [ { ID := 1, Name := "Laptop", Description := "High-performance laptop",
      Price := OrderService.F64.lit 99999 100, Category := "Electronics" },
    { ID := 2, Name := "Coffee Mug", Description := "Ceramic coffee mug",
      Price := OrderService.F64.lit 1599 100, Category := "Kitchen" },
    { ID := 3, Name := "Book", Description := "Programming guide",
      Price := OrderService.F64.lit 2999 100, Category := "Books" },
    { ID := 4, Name := "Headphones", Description := "Wireless headphones",
      Price := OrderService.F64.lit 19999 100, Category := "Electronics" } ]

/-- What `getProduct` writes to its `http.ResponseWriter`. -/
inductive Response where
  /-- The call `http.Error(w, msg, code)`. -/
  | error (msg : String) (code : Int)
  /-- Content type `application/json`, status 200 (no `WriteHeader` call), body
  the encoded product. -/
  | json (product : Product)
  deriving DecidableEq, Repr

/-- An increment of the counter `productViewsTotal`. -/
structure ProductView where
  product_id : String
  category : String
  deriving DecidableEq, Repr

/-- Handler `getProduct`.  `id` is the result of `strconv.Atoi(vars["id"])`
(`none` when it fails).  The first product with that ID is returned, and a
view of it is counted. -/
def getProduct (id : Option Int) : Response × List ProductView :=
  match id with
  | none => (.error "Invalid product ID" OrderService.StatusBadRequest, [])
  | some id =>
    match products.find? (fun product => product.ID == id) with
    | some product => (.json product, [⟨toString product.ID, product.Category⟩])
    | none => (.error "Product not found" OrderService.StatusNotFound, [])

end ProductService

namespace OrderService

/-! ## Lemmas on the shims and the loop -/

theorem lookup_eq_none_iff {α : Type} (l : List (Int × α)) (k : Int) :
    l.lookup k = none ↔ k ∉ l.map Prod.fst := by
  induction l with
  | nil => simp
  | cons hd tl ih =>
    obtain ⟨a, b⟩ := hd
    by_cases h : k = a
    · subst h
      simp [List.lookup]
    · have h2 : (k == a) = false := by simpa using h
      simp [List.lookup, h2, ih, h]

theorem callProductService_error_iff (p : Int) :
    (∃ e, callProductService p = .error e) ↔ p ∉ priceKeys := by
  unfold callProductService priceKeys
  rw [← lookup_eq_none_iff]
  cases h : prices.lookup p <;> simp

theorem callProductService_ok_iff (p : Int) :
    (∃ price, callProductService p = .ok price) ↔ p ∈ priceKeys := by
  have h := callProductService_error_iff p
  cases hc : callProductService p with
  | error e =>
    have : p ∉ priceKeys := h.mp ⟨e, hc⟩
    simp [this]
  | ok price =>
    have : ¬ p ∉ priceKeys := fun hn => by
      obtain ⟨e, he⟩ := h.mpr hn
      rw [hc] at he
      cases he
    simp only [not_not] at this
    simp [this]

theorem callUserService_error_iff (u : Int) :
    (∃ e, callUserService u = .error e) ↔ u ≤ 0 := by
  unfold callUserService
  by_cases h : u ≤ 0 <;> simp [h]

/-- When every ID is in the price table the loop completes with the
left-to-right sum and calls the product shim once per ID, in order. -/
theorem priceLoop_all (ids : List Int) (total : F64) (h : ∀ p ∈ ids, p ∈ priceKeys) :
    priceLoop total ids = (.completed (ids.foldl addPrice total), ids.map .callProductService) := by
  induction ids generalizing total with
  | nil => rfl
  | cons p rest ih =>
    obtain ⟨price, hp⟩ := (callProductService_ok_iff p).mpr (h p (by simp))
    have hrest : ∀ q ∈ rest, q ∈ priceKeys := fun q hq => h q (by simp [hq])
    simp [priceLoop, hp, ih _ hrest, addPrice]

/-- When some ID is missing from the price table the loop returns early at the
first such ID, having called the product shim for it and the IDs before it. -/
theorem priceLoop_first (ids : List Int) (total : F64) (d : Int)
    (h : ids.find? (fun p => decide (p ∉ priceKeys)) = some d) :
    ∃ calls, priceLoop total ids = (.aborted d, calls) := by
  induction ids generalizing total with
  | nil => simp at h
  | cons p rest ih =>
    by_cases hp : p ∈ priceKeys
    · obtain ⟨price, hpr⟩ := (callProductService_ok_iff p).mpr hp
      have h2 : rest.find? (fun p => decide (p ∉ priceKeys)) = some d := by
        simpa [List.find?, hp] using h
      obtain ⟨calls, hc⟩ := ih (total.add price) h2
      exact ⟨.callProductService p :: calls, by simp [priceLoop, hpr, hc]⟩
    · obtain ⟨e, he⟩ := (callProductService_error_iff p).mpr hp
      have h2 : p = d := by simpa [List.find?, hp] using h
      subst h2
      exact ⟨[.callProductService p], by simp [priceLoop, he]⟩

theorem find_missing_none (ids : List Int) :
    ids.find? (fun p => decide (p ∉ priceKeys)) = none ↔ ∀ p ∈ ids, p ∈ priceKeys := by
  simp [List.find?_eq_none]

theorem find_missing_some (ids : List Int) (h : ∃ p ∈ ids, p ∉ priceKeys) :
    ∃ d, ids.find? (fun p => decide (p ∉ priceKeys)) = some d := by
  cases hf : ids.find? (fun p => decide (p ∉ priceKeys)) with
  | some d => exact ⟨d, rfl⟩
  | none =>
    obtain ⟨p, hp, hn⟩ := h
    exact absurd ((find_missing_none ids).mp hf p hp) hn

/-! ## The three ways `createOrder` ends on a decoded request -/

theorem createOrder_user_not_found (s : Store) (req : CreateOrderRequest) (now : String)
    (hu : req.UserID ≤ 0) :
    createOrder s (some req) now =
      ⟨s, .error "User not found" StatusBadRequest, [.callUserService req.UserID]⟩ := by
  simp [createOrder, callUserService, hu]

theorem createOrder_product_not_found (s : Store) (req : CreateOrderRequest) (now : String)
    (hu : 0 < req.UserID) (d : Int)
    (hd : req.Products.find? (fun p => decide (p ∉ priceKeys)) = some d) :
    ∃ calls, createOrder s (some req) now =
      ⟨s, .error ("Product " ++ toString d ++ " not found") StatusBadRequest,
        .callUserService req.UserID :: calls⟩ := by
  obtain ⟨calls, hc⟩ := priceLoop_first req.Products F64.zero d hd
  have hu2 : ¬ req.UserID ≤ 0 := not_le.mpr hu
  exact ⟨calls, by simp [createOrder, callUserService, hu2, hc]⟩

theorem createOrder_created (s : Store) (req : CreateOrderRequest) (now : String)
    (hu : 0 < req.UserID) (hp : ∀ p ∈ req.Products, p ∈ priceKeys) :
    createOrder s (some req) now =
      ⟨{ orders := s.orders ++ [newOrder s req now], nextOrderID := s.nextOrderID + 1 },
        .json StatusCreated (newOrder s req now),
        .callUserService req.UserID :: req.Products.map .callProductService ++
          [.ordersTotalInc "pending", .orderValueObserve "pending" (sumPrices req.Products)]⟩ := by
  have hu2 : ¬ req.UserID ≤ 0 := not_le.mpr hu
  simp [createOrder, callUserService, hu2, priceLoop_all req.Products F64.zero hp, newOrder,
    sumPrices]

/-- Whatever the request, `createOrder` either leaves the store as it was and
answers with an error, or appends `newOrder` and answers 201 with it. -/
theorem createOrder_cases (s : Store) (body : Option CreateOrderRequest) (now : String) :
    ((createOrder s body now).store = s ∧
        ∃ msg, (createOrder s body now).response = .error msg StatusBadRequest) ∨
      ∃ req, body = some req ∧ 0 < req.UserID ∧ (∀ p ∈ req.Products, p ∈ priceKeys) ∧
        (createOrder s body now).store =
          { orders := s.orders ++ [newOrder s req now], nextOrderID := s.nextOrderID + 1 } ∧
        (createOrder s body now).response = .json StatusCreated (newOrder s req now) := by
  cases body with
  | none => exact Or.inl ⟨rfl, _, rfl⟩
  | some req =>
    by_cases hu : req.UserID ≤ 0
    · rw [createOrder_user_not_found s req now hu]
      exact Or.inl ⟨rfl, _, rfl⟩
    · have hu2 : 0 < req.UserID := not_le.mp hu
      cases hf : req.Products.find? (fun p => decide (p ∉ priceKeys)) with
      | some d =>
        obtain ⟨calls, hc⟩ := createOrder_product_not_found s req now hu2 d hf
        rw [hc]
        exact Or.inl ⟨rfl, _, rfl⟩
      | none =>
        have hp := (find_missing_none req.Products).mp hf
        rw [createOrder_created s req now hu2 hp]
        exact Or.inr ⟨req, rfl, hu2, hp, rfl, rfl⟩

/-! ## Claims on a single `createOrder` call -/

/-- C1. For a decoded request with a positive user ID whose product IDs are all
in the price table (any length, duplicates allowed), `createOrder` answers 201
with an order whose total is the left-to-right sum from 0 of the prices
`callProductService` returns, in request order, and whose product list is the
request's list itself. -/
theorem createOrder_total_is_sum (s : Store) (req : CreateOrderRequest) (now : String)
    (hu : 0 < req.UserID) (hp : ∀ p ∈ req.Products, p ∈ priceKeys) :
    ∃ order, (createOrder s (some req) now).response = .json StatusCreated order ∧
      order.Total = req.Products.foldl addPrice F64.zero ∧
      order.Products = req.Products := by
  rw [createOrder_created s req now hu hp]
  exact ⟨newOrder s req now, rfl, rfl, rfl⟩

theorem createOrder_total_is_sum_witness :
    ∃ order, (createOrder seed (some ⟨7, [3, 1, 3]⟩) "2024-02-01T00:00:00Z").response =
        .json StatusCreated order ∧
      order.Total = [3, 1, 3].foldl addPrice F64.zero ∧
      order.Products = [3, 1, 3] :=
  createOrder_total_is_sum seed ⟨7, [3, 1, 3]⟩ "2024-02-01T00:00:00Z" (by decide) (by decide)

/-- C2. For a decoded request whose user ID is not positive, whatever its
product IDs, `orders` and `nextOrderID` after `createOrder` are what they were
before the call. -/
theorem createOrder_bad_user_store_unchanged (s : Store) (req : CreateOrderRequest)
    (now : String) (hu : req.UserID ≤ 0) :
    (createOrder s (some req) now).store.orders = s.orders ∧
      (createOrder s (some req) now).store.nextOrderID = s.nextOrderID := by
  rw [createOrder_user_not_found s req now hu]
  exact ⟨rfl, rfl⟩

theorem createOrder_bad_user_store_unchanged_witness :
    (createOrder seed (some ⟨0, [1, 99]⟩) "2024-02-01T00:00:00Z").store.orders = seed.orders ∧
      (createOrder seed (some ⟨0, [1, 99]⟩) "2024-02-01T00:00:00Z").store.nextOrderID =
        seed.nextOrderID :=
  createOrder_bad_user_store_unchanged seed ⟨0, [1, 99]⟩ "2024-02-01T00:00:00Z" (by decide)

/-- C3. For a decoded request with at least one product ID missing from the
price table, at any position, `createOrder` appends no order: `orders` and
`nextOrderID` are what they were before the call. -/
theorem createOrder_missing_product_store_unchanged (s : Store) (req : CreateOrderRequest)
    (now : String) (hm : ∃ p ∈ req.Products, p ∉ priceKeys) :
    (createOrder s (some req) now).store.orders = s.orders ∧
      (createOrder s (some req) now).store.nextOrderID = s.nextOrderID := by
  by_cases hu : req.UserID ≤ 0
  · rw [createOrder_user_not_found s req now hu]
    exact ⟨rfl, rfl⟩
  · obtain ⟨d, hd⟩ := find_missing_some req.Products hm
    obtain ⟨calls, hc⟩ := createOrder_product_not_found s req now (not_le.mp hu) d hd
    rw [hc]
    exact ⟨rfl, rfl⟩

theorem createOrder_missing_product_store_unchanged_witness :
    (createOrder seed (some ⟨1, [1, 2, 99, 3]⟩) "2024-02-01T00:00:00Z").store.orders =
        seed.orders ∧
      (createOrder seed (some ⟨1, [1, 2, 99, 3]⟩) "2024-02-01T00:00:00Z").store.nextOrderID =
        seed.nextOrderID :=
  createOrder_missing_product_store_unchanged seed ⟨1, [1, 2, 99, 3]⟩ "2024-02-01T00:00:00Z"
    ⟨99, by decide, by decide⟩

/-- C5. The outcome of `createOrder` on a decoded request `(u, ps)`: 400
"User not found" when `u ≤ 0`, whatever `ps`; otherwise 400 "Product d not
found" for the first `d` of `ps` missing from the price table; otherwise 201
with the constructed order.  The answer is 201 exactly when `u > 0` and every
ID of `ps` is in the price table. -/
theorem createOrder_outcome (s : Store) (req : CreateOrderRequest) (now : String) :
    (createOrder s (some req) now).response =
        (if req.UserID ≤ 0 then .error "User not found" 400
         else
          match req.Products.find? (fun p => decide (p ∉ priceKeys)) with
          | some d => .error ("Product " ++ toString d ++ " not found") 400
          | none => .json 201 (newOrder s req now)) ∧
      ((createOrder s (some req) now).response.code = 201 ↔
        0 < req.UserID ∧ ∀ p ∈ req.Products, p ∈ priceKeys) := by
  by_cases hu : req.UserID ≤ 0
  · rw [createOrder_user_not_found s req now hu]
    have hu2 : ¬ 0 < req.UserID := not_lt.mpr hu
    simp [hu, hu2, Response.code, StatusBadRequest]
  · have hu2 : 0 < req.UserID := not_le.mp hu
    cases hf : req.Products.find? (fun p => decide (p ∉ priceKeys)) with
    | some d =>
      obtain ⟨calls, hc⟩ := createOrder_product_not_found s req now hu2 d hf
      have hnot : ¬ ∀ p ∈ req.Products, p ∈ priceKeys := fun hall => by
        rw [(find_missing_none req.Products).mpr hall] at hf
        cases hf
      rw [hc]
      simp only [hu, if_false, Response.code, StatusBadRequest, true_and]
      constructor
      · intro h
        exact absurd h (by decide)
      · intro h
        exact absurd h.2 hnot
    | none =>
      have hp := (find_missing_none req.Products).mp hf
      rw [createOrder_created s req now hu2 hp]
      simp only [hu, if_false, Response.code, StatusCreated, true_and]
      exact ⟨fun _ => ⟨hu2, hp⟩, fun _ => trivial⟩

/-- C6. On a decoded request whose user ID is not positive, the run of
`createOrder` calls `callUserService` exactly once, never calls
`callProductService`, and records nothing on `orders_total` or on
`order_value_dollars`. -/
theorem createOrder_bad_user_calls (s : Store) (req : CreateOrderRequest) (now : String)
    (hu : req.UserID ≤ 0) :
    (createOrder s (some req) now).events.countP Event.isUserCall = 1 ∧
      (createOrder s (some req) now).events.countP Event.isProductCall = 0 ∧
      (createOrder s (some req) now).events.countP Event.isOrdersTotal = 0 ∧
      (createOrder s (some req) now).events.countP Event.isOrderValue = 0 := by
  rw [createOrder_user_not_found s req now hu]
  simp [Event.isUserCall, Event.isProductCall, Event.isOrdersTotal, Event.isOrderValue]

theorem createOrder_bad_user_calls_witness :
    (createOrder seed (some ⟨-1, [1]⟩) "2024-02-01T00:00:00Z").events.countP
        Event.isUserCall = 1 ∧
      (createOrder seed (some ⟨-1, [1]⟩) "2024-02-01T00:00:00Z").events.countP
        Event.isProductCall = 0 ∧
      (createOrder seed (some ⟨-1, [1]⟩) "2024-02-01T00:00:00Z").events.countP
        Event.isOrdersTotal = 0 ∧
      (createOrder seed (some ⟨-1, [1]⟩) "2024-02-01T00:00:00Z").events.countP
        Event.isOrderValue = 0 :=
  createOrder_bad_user_calls seed ⟨-1, [1]⟩ "2024-02-01T00:00:00Z" (by decide)

/-! ## The example order -/

set_option exponentiation.threshold 4000 in
set_option maxRecDepth 100000 in
/-- The constant `999.99` as a double: `0x1.f3feb851eb852p+9`. -/
theorem lit_999_99 : F64.lit 99999 100 = F64.fin (0x1f3feb851eb852 * 2 ^ 1031) := by
  decide

set_option exponentiation.threshold 4000 in
set_option maxRecDepth 100000 in
/-- The constant `15.99` as a double: `0x1.ffae147ae147bp+3`. -/
theorem lit_15_99 : F64.lit 1599 100 = F64.fin (0x1ffae147ae147b * 2 ^ 1025) := by
  decide

set_option exponentiation.threshold 4000 in
set_option maxRecDepth 100000 in
/-- The constant `1015.98` as a double: `0x1.fbfd70a3d70a4p+9`. -/
theorem lit_1015_98 : F64.lit 101598 100 = F64.fin (0x1fbfd70a3d70a4 * 2 ^ 1031) := by
  decide

set_option exponentiation.threshold 4000 in
set_option maxRecDepth 100000 in
/-- In double arithmetic `0 + 999.99 + 15.99` is the double `1015.98`. -/
theorem sumPrices_1_2 : sumPrices [1, 2] = F64.lit 101598 100 := by
  decide

theorem callProductService_one : callProductService 1 = .ok (F64.lit 99999 100) := by
  simp [callProductService, prices, List.lookup]

theorem callProductService_two : callProductService 2 = .ok (F64.lit 1599 100) := by
  simp [callProductService, prices, List.lookup]

/-- C7. For the request `user_id = 1`, `product_ids = [1, 2]`, `createOrder`
answers 201 with an order whose total is the double `1015.98`, which is what
`0 + 999.99 + 15.99` gives in `float64` arithmetic, and whose status is
"pending". -/
theorem createOrder_example_total (s : Store) (now : String) :
    ∃ order, (createOrder s (some ⟨1, [1, 2]⟩) now).response = .json 201 order ∧
      order.Total = F64.lit 101598 100 ∧
      order.Total = (F64.zero.add (F64.lit 99999 100)).add (F64.lit 1599 100) ∧
      order.Status = "pending" := by
  rw [createOrder_created s ⟨1, [1, 2]⟩ now (by decide) (by decide)]
  refine ⟨newOrder s ⟨1, [1, 2]⟩ now, rfl, ?_, ?_, rfl⟩
  · simp only [newOrder]
    exact sumPrices_1_2
  · simp only [newOrder, sumPrices, List.foldl, addPrice, callProductService_one,
      callProductService_two]

/-! ## Sequences of calls -/

theorem seed_inv : seed.Inv := by
  constructor
  · decide
  · intro o ho
    simp only [seed, List.mem_cons, List.mem_singleton, List.not_mem_nil, or_false] at ho
    rcases ho with h | h <;> subst h <;> decide

theorem createOrder_inv (s : Store) (body : Option CreateOrderRequest) (now : String)
    (h : s.Inv) : (createOrder s body now).store.Inv := by
  rcases createOrder_cases s body now with ⟨hs, _⟩ | ⟨req, _, _, _, hs, _⟩
  · rw [hs]
    exact h
  · rw [hs]
    obtain ⟨hnd, hlt⟩ := h
    constructor
    · simp only [List.map_append, List.map_cons, List.map_nil]
      refine List.Nodup.append hnd (List.nodup_singleton _) ?_
      intro a ha hb
      simp only [List.mem_singleton] at hb
      obtain ⟨o, ho, rfl⟩ := List.mem_map.mp ha
      have := hlt o ho
      simp only [newOrder] at hb
      omega
    · intro o ho
      simp only [List.mem_append, List.mem_singleton] at ho
      rcases ho with ho | ho
      · have := hlt o ho
        show o.ID < s.nextOrderID + 1
        omega
      · subst ho
        show s.nextOrderID < s.nextOrderID + 1
        omega

theorem run_inv (calls : List (Option CreateOrderRequest × String)) (s : Store) (h : s.Inv) :
    (run s calls).1.Inv := by
  induction calls generalizing s with
  | nil => exact h
  | cons call rest ih => exact ih _ (createOrder_inv s call.1 call.2 h)

theorem reachable_inv (s : Store) (h : Reachable s) : s.Inv := by
  obtain ⟨calls, rfl⟩ := h
  exact run_inv calls seed seed_inv

/-- The order just appended is the one found under its ID. -/
theorem find_appended (s : Store) (h : s.Inv) (o : Order) (ho : o.ID = s.nextOrderID) :
    (s.orders ++ [o]).find? (fun order => order.ID == o.ID) = some o := by
  have hnone : s.orders.find? (fun order => order.ID == o.ID) = none := by
    rw [List.find?_eq_none]
    intro x hx
    have := h.2 x hx
    simp only [beq_iff_eq]
    omega
  simp [List.find?_append, hnone]

/-- C4. In every store reachable from the seed data by `createOrder` calls,
when a further `createOrder` succeeds returning order `o`, a following
`getOrder` with `o`'s ID finds an order and returns exactly `o`. -/
theorem getOrder_after_createOrder (s : Store) (hs : Reachable s)
    (body : Option CreateOrderRequest) (now : String) (o : Order)
    (hc : (createOrder s body now).response = .json StatusCreated o) :
    getOrder (createOrder s body now).store (some o.ID) = .json StatusOK o := by
  rcases createOrder_cases s body now with ⟨_, msg, hr⟩ | ⟨req, _, _, _, hst, hr⟩
  · rw [hr] at hc
    cases hc
  · rw [hr] at hc
    injection hc with _ ho
    subst ho
    rw [hst]
    simp only [getOrder]
    rw [find_appended s (reachable_inv s hs) (newOrder s req now) rfl]

theorem getOrder_after_createOrder_witness :
    Reachable seed ∧
      (createOrder seed (some ⟨2, [3, 3]⟩) "2024-02-01T00:00:00Z").response =
        .json StatusCreated (newOrder seed ⟨2, [3, 3]⟩ "2024-02-01T00:00:00Z") ∧
      getOrder (createOrder seed (some ⟨2, [3, 3]⟩) "2024-02-01T00:00:00Z").store
          (some (newOrder seed ⟨2, [3, 3]⟩ "2024-02-01T00:00:00Z").ID) =
        .json StatusOK (newOrder seed ⟨2, [3, 3]⟩ "2024-02-01T00:00:00Z") :=
  ⟨⟨[], rfl⟩,
    congrArg Outcome.response
      (createOrder_created seed ⟨2, [3, 3]⟩ "2024-02-01T00:00:00Z" (by decide) (by decide)),
    getOrder_after_createOrder seed ⟨[], rfl⟩ (some ⟨2, [3, 3]⟩) "2024-02-01T00:00:00Z"
      (newOrder seed ⟨2, [3, 3]⟩ "2024-02-01T00:00:00Z")
      (congrArg Outcome.response
        (createOrder_created seed ⟨2, [3, 3]⟩ "2024-02-01T00:00:00Z" (by decide) (by decide)))⟩

theorem createdOrders_error (msg : String) (code : Int) (rs : List Response) :
    createdOrders (.error msg code :: rs) = createdOrders rs := by
  simp [createdOrders]

theorem createdOrders_created (o : Order) (rs : List Response) :
    createdOrders (.json StatusCreated o :: rs) = o :: createdOrders rs := by
  simp [createdOrders]

/-- A run from `s` appends the created orders, in call order, after the
orders of `s`, hands them the consecutive IDs from `s.nextOrderID` on, and
advances the counter by their number. -/
theorem run_spec (calls : List (Option CreateOrderRequest × String)) (s : Store) :
    (run s calls).1.orders = s.orders ++ createdOrders (run s calls).2 ∧
      (run s calls).1.nextOrderID = s.nextOrderID + (createdOrders (run s calls).2).length ∧
      (createdOrders (run s calls).2).map Order.ID =
        (List.range (createdOrders (run s calls).2).length).map
          (fun (i : Nat) => s.nextOrderID + (i : Int)) := by
  induction calls generalizing s with
  | nil => simp [run, createdOrders]
  | cons call rest ih =>
    rcases createOrder_cases s call.1 call.2 with ⟨hs, msg, hr⟩ | ⟨req, _, _, _, hs, hr⟩
    · simp only [run, hr, hs, createdOrders_error]
      exact ih s
    · simp only [run, hr, hs, createdOrders_created]
      obtain ⟨h1, h2, h3⟩ :=
        ih { orders := s.orders ++ [newOrder s req call.2], nextOrderID := s.nextOrderID + 1 }
      refine ⟨?_, ?_, ?_⟩
      · rw [h1]
        simp
      · rw [h2]
        simp only [List.length_cons]
        push_cast
        ring
      · simp only [List.map_cons, List.length_cons, List.range_succ_eq_map, h3, List.map_map]
        refine congrArg₂ List.cons ?_ (List.map_congr_left ?_)
        · simp [newOrder]
        · intro i _
          simp only [Function.comp]
          push_cast
          ring

/-- C10. In every store reachable from the seed data (IDs 1 and 2, counter 3)
by a sequence of `createOrder` calls run one after the other, successful or
not: the stored IDs are pairwise distinct and below `nextOrderID`; a further
successful call keeps the stored orders as a prefix, appends exactly one order
whose ID is the counter before the call and advances the counter by one; a
further failed call leaves the store, counter included, as it was; the
successful creations so far received the IDs 3, 4, 5, ... in call order (the
k-th one `k + 2`) and are stored, in that order, after the two seed orders. -/
theorem sequential_ids (calls : List (Option CreateOrderRequest × String)) :
    ((run seed calls).1.orders.map Order.ID).Nodup ∧
      (∀ o ∈ (run seed calls).1.orders, o.ID < (run seed calls).1.nextOrderID) ∧
      (∀ body now,
        (∀ o, (createOrder (run seed calls).1 body now).response = .json StatusCreated o →
          (createOrder (run seed calls).1 body now).store.orders =
              (run seed calls).1.orders ++ [o] ∧
            o.ID = (run seed calls).1.nextOrderID ∧
            (createOrder (run seed calls).1 body now).store.nextOrderID =
              (run seed calls).1.nextOrderID + 1) ∧
        ((createOrder (run seed calls).1 body now).response.code ≠ StatusCreated →
          (createOrder (run seed calls).1 body now).store = (run seed calls).1)) ∧
      (createdOrders (run seed calls).2).map Order.ID =
        (List.range (createdOrders (run seed calls).2).length).map
          (fun (i : Nat) => ((i + 1 : Nat) : Int) + 2) ∧
      (run seed calls).1.orders = seed.orders ++ createdOrders (run seed calls).2 ∧
      (run seed calls).1.nextOrderID = 3 + (createdOrders (run seed calls).2).length := by
  obtain ⟨h1, h2, h3⟩ := run_spec calls seed
  obtain ⟨hnd, hlt⟩ := run_inv calls seed seed_inv
  refine ⟨hnd, hlt, ?_, ?_, h1, h2⟩
  · intro body now
    rcases createOrder_cases (run seed calls).1 body now with
      ⟨hs, msg, hr⟩ | ⟨req, _, _, _, hs, hr⟩
    · refine ⟨?_, fun _ => hs⟩
      intro o ho
      rw [hr] at ho
      cases ho
    · constructor
      · intro o ho
        rw [hr] at ho
        injection ho with _ ho
        subst ho
        rw [hs]
        exact ⟨rfl, rfl, rfl⟩
      · intro hne
        rw [hr] at hne
        exact absurd rfl hne
  · rw [h3]
    refine List.map_congr_left ?_
    intro i _
    show (3 : Int) + (i : Int) = ((i + 1 : Nat) : Int) + 2
    push_cast
    ring

/-! ## The middleware -/

/-- Last value wins, and 200 stands when `WriteHeader` is never called: a
handler that writes a body and then calls `WriteHeader(404)` and
`WriteHeader(500)` is counted under "500", one that only writes a body under
"200". -/
theorem status_label_examples :
    (prometheusMiddleware
        (.write "not found" fun _ _ => .writeHeader 404 (.writeHeader 500 .done))
        discard "GET" "/orders/9" F64.zero ()).metrics =
        [.httpRequestDurationObserve "GET" "/orders/9" F64.zero,
         .httpRequestsTotalInc "GET" "/orders/9" "500"] ∧
      (prometheusMiddleware (.write "ok" fun _ _ => .done)
        discard "GET" "/health" F64.zero ()).metrics =
        [.httpRequestDurationObserve "GET" "/health" F64.zero,
         .httpRequestsTotalInc "GET" "/health" "200"] := by
  decide

/-- The wrapper has no method outside the interface: a handler that flushes
when its writer can is run without a flush under the middleware, whatever the
underlying writer can do. -/
theorem wrapper_hides_extra_methods {σ : Type} (w : http.ResponseWriter σ) (s : σ) :
    (prometheusMiddleware
        (.hasMethod "Flush" fun ok => if ok then .callMethod "Flush" .done else .done)
        (recording w) "GET" "/orders" F64.zero (s, [])).writer = (s, []) := by
  simp [prometheusMiddleware, http.Handler.ServeHTTP, responseWriter.methods]

/-- The three steps of a call, taken with no other step in between, do what
`createOrder` does. -/
theorem thread_three_steps (s : Store) (req : CreateOrderRequest) (now : String) :
    Thread.step (Thread.step (Thread.step s (.ready req now)).1
        (Thread.step s (.ready req now)).2).1
      (Thread.step (Thread.step s (.ready req now)).1 (Thread.step s (.ready req now)).2).2 =
      ((createOrder s (some req) now).store, .done (createOrder s (some req) now).response) := by
  by_cases hu : req.UserID ≤ 0
  · simp [Thread.step, createOrder, callUserService, hu]
  · cases hl : priceLoop F64.zero req.Products with
    | mk res calls =>
      cases res <;> simp [Thread.step, createOrder, callUserService, hu, hl]

theorem getElem?_middle {α : Type} (pre post : List α) (t : α) :
    (pre ++ t :: post)[pre.length]? = some t := by
  induction pre with
  | nil => simp
  | cons a pre ih => simpa using ih

theorem set_middle {α : Type} (pre post : List α) (t u : α) :
    (pre ++ t :: post).set pre.length u = pre ++ u :: post := by
  induction pre with
  | nil => rfl
  | cons a pre ih => simp

theorem step_at (s : Store) (pre post : List Thread) (t : Thread) :
    System.step ⟨s, pre ++ t :: post⟩ pre.length =
      ⟨(t.step s).1, pre ++ (t.step s).2 :: post⟩ := by
  simp only [System.step, getElem?_middle, set_middle]

theorem three_steps_at (s : Store) (pre post : List Thread) (req : CreateOrderRequest)
    (now : String) :
    System.exec ⟨s, pre ++ .ready req now :: post⟩ [pre.length, pre.length, pre.length] =
      ⟨(createOrder s (some req) now).store,
        pre ++ .done (createOrder s (some req) now).response :: post⟩ := by
  simp only [System.exec, List.foldl, step_at]
  rw [thread_three_steps]

/-- A serial schedule does what the same calls do run one after the other. -/
theorem exec_serial (reqs : List (CreateOrderRequest × String)) (pre : List Thread)
    (s : Store) :
    System.exec ⟨s, pre ++ reqs.map fun r => .ready r.1 r.2⟩ (serial pre.length reqs.length) =
      ⟨(run s (reqs.map fun r => (some r.1, r.2))).1,
        pre ++ (run s (reqs.map fun r => (some r.1, r.2))).2.map .done⟩ := by
  induction reqs generalizing pre s with
  | nil => simp [serial, System.exec, run]
  | cons r rest ih =>
    have h3 := three_steps_at s pre (rest.map fun r => .ready r.1 r.2) r.1 r.2
    have hih := ih (pre ++ [.done (createOrder s (some r.1) r.2).response])
      (createOrder s (some r.1) r.2).store
    simp only [System.exec] at h3 hih ⊢
    simp only [List.length_append, List.length_singleton, List.append_assoc,
      List.singleton_append] at hih
    simp only [List.map_cons, List.length_cons, serial, run]
    rw [show pre.length :: pre.length :: pre.length :: serial (pre.length + 1) rest.length =
        [pre.length, pre.length, pre.length] ++ serial (pre.length + 1) rest.length from rfl,
      List.foldl_append, h3, hih]

/-- When every call is valid, every response of a run is a 201. -/
theorem run_all_created (calls : List (CreateOrderRequest × String)) (s : Store)
    (hv : ∀ r ∈ calls, 0 < r.1.UserID ∧ ∀ p ∈ r.1.Products, p ∈ priceKeys) :
    (run s (calls.map fun r => (some r.1, r.2))).2 =
        (createdOrders (run s (calls.map fun r => (some r.1, r.2))).2).map
          (.json StatusCreated) ∧
      (createdOrders (run s (calls.map fun r => (some r.1, r.2))).2).length = calls.length := by
  induction calls generalizing s with
  | nil => simp [run, createdOrders]
  | cons r rest ih =>
    obtain ⟨hu, hp⟩ := hv r (by simp)
    have hrest : ∀ q ∈ rest, 0 < q.1.UserID ∧ ∀ p ∈ q.1.Products, p ∈ priceKeys :=
      fun q hq => hv q (by simp [hq])
    have hc := createOrder_created s r.1 r.2 hu hp
    obtain ⟨h1, h2⟩ := ih (createOrder s (some r.1) r.2).store hrest
    simp only [List.map_cons, run]
    rw [congrArg Outcome.response hc] at *
    simp only [createdOrders_created, List.map_cons, List.length_cons]
    exact ⟨by rw [← h1], by rw [h2]⟩

/-- C8, as stated, fails: two calls that both succeed, started on the seed
data and interleaved so that each builds its order before the other has
incremented the counter, both receive ID 3; the stored IDs are 1, 2, 3, 3 and
the counter ends at 5. -/
theorem overlapping_calls_share_id :
    ((System.init seed [(⟨1, [1]⟩, "2024-02-01T00:00:00Z"),
          (⟨2, [2]⟩, "2024-02-01T00:00:00Z")]).exec [0, 1, 0, 0, 1, 1]).threads.map
        Thread.createdID = [some 3, some 3] ∧
      ((System.init seed [(⟨1, [1]⟩, "2024-02-01T00:00:00Z"),
          (⟨2, [2]⟩, "2024-02-01T00:00:00Z")]).exec [0, 1, 0, 0, 1, 1]).store.orders.map
        Order.ID = [1, 2, 3, 3] ∧
      ((System.init seed [(⟨1, [1]⟩, "2024-02-01T00:00:00Z"),
          (⟨2, [2]⟩, "2024-02-01T00:00:00Z")]).exec [0, 1, 0, 0, 1, 1]).store.nextOrderID =
        5 := by
  decide

/-- C8, amended.  For every `N` and every `N` `createOrder` calls that each
succeed and that do not overlap (each call runs from its start to its return
before the next one starts), the `N` orders receive pairwise-distinct IDs
forming the gap-free run that starts at the counter before the calls, exactly
`N` orders are appended after the existing ones, and the counter advances by
`N`. -/
theorem serial_calls_consecutive_ids (s : Store) (reqs : List (CreateOrderRequest × String))
    (hv : ∀ r ∈ reqs, 0 < r.1.UserID ∧ ∀ p ∈ r.1.Products, p ∈ priceKeys) :
    ∃ created : List Order,
      created.length = reqs.length ∧
      ((System.init s reqs).exec (serial 0 reqs.length)).threads =
        created.map (fun o => .done (.json StatusCreated o)) ∧
      ((System.init s reqs).exec (serial 0 reqs.length)).store.orders = s.orders ++ created ∧
      created.map Order.ID =
        (List.range reqs.length).map (fun (i : Nat) => s.nextOrderID + (i : Int)) ∧
      (created.map Order.ID).Nodup ∧
      ((System.init s reqs).exec (serial 0 reqs.length)).store.nextOrderID =
        s.nextOrderID + reqs.length := by
  have he := exec_serial reqs [] s
  simp only [List.nil_append, List.length_nil] at he
  obtain ⟨h1, h2, h3⟩ := run_spec (reqs.map fun r => (some r.1, r.2)) s
  obtain ⟨h4, h5⟩ := run_all_created reqs s hv
  refine ⟨createdOrders (run s (reqs.map fun r => (some r.1, r.2))).2, h5, ?_, ?_, ?_, ?_, ?_⟩
  · simp only [System.init, he]
    conv_lhs => rw [h4]
    simp only [List.map_map]
    rfl
  · simp only [System.init, he]
    exact h1
  · rw [h3, h5]
  · rw [h3]
    refine List.Nodup.map ?_ (List.nodup_range _)
    intro a b hab
    simp only at hab
    omega
  · simp only [System.init, he]
    rw [h2, h5]

theorem serial_calls_consecutive_ids_witness :
    ∃ created : List Order,
      created.length = 3 ∧
      ((System.init seed [(⟨1, [1, 2]⟩, "2024-02-01T00:00:00Z"),
          (⟨2, []⟩, "2024-02-01T00:00:01Z"), (⟨5, [4, 4]⟩, "2024-02-01T00:00:02Z")]).exec
            (serial 0 3)).threads =
        created.map (fun o => .done (.json StatusCreated o)) ∧
      ((System.init seed [(⟨1, [1, 2]⟩, "2024-02-01T00:00:00Z"),
          (⟨2, []⟩, "2024-02-01T00:00:01Z"), (⟨5, [4, 4]⟩, "2024-02-01T00:00:02Z")]).exec
            (serial 0 3)).store.orders = seed.orders ++ created ∧
      created.map Order.ID =
        (List.range 3).map (fun (i : Nat) => seed.nextOrderID + (i : Int)) ∧
      (created.map Order.ID).Nodup ∧
      ((System.init seed [(⟨1, [1, 2]⟩, "2024-02-01T00:00:00Z"),
          (⟨2, []⟩, "2024-02-01T00:00:01Z"), (⟨5, [4, 4]⟩, "2024-02-01T00:00:02Z")]).exec
            (serial 0 3)).store.nextOrderID = seed.nextOrderID + (3 : Nat) :=
  serial_calls_consecutive_ids seed
    [(⟨1, [1, 2]⟩, "2024-02-01T00:00:00Z"), (⟨2, []⟩, "2024-02-01T00:00:01Z"),
      (⟨5, [4, 4]⟩, "2024-02-01T00:00:02Z")]
    (by decide)

/-! ## The price table and the product service -/

/-- Looking a key up in the table of the pairs `(ID, Price)` of a product list
gives the price of the first product with that ID. -/
theorem lookup_prices_eq_find (l : List ProductService.Product) (id : Int) :
    (l.map fun p => (p.ID, p.Price)).lookup id =
      (l.find? fun product => product.ID == id).map ProductService.Product.Price := by
  induction l with
  | nil => rfl
  | cons p rest ih =>
    by_cases h : p.ID = id
    · subst h
      simp [List.lookup, List.find?]
    · have h1 : (id == p.ID) = false := by simpa using fun e => h e.symm
      have h2 : (p.ID == id) = false := by simpa using h
      simp only [List.map_cons, List.lookup, List.find?, h1, h2]
      exact ih

/-- The map literal `prices` lists the `(ID, Price)` pairs of `products`. -/
theorem prices_eq_products :
    prices = ProductService.products.map fun p => (p.ID, p.Price) := by
  simp [prices, ProductService.products]

/-- A product that `find?` returns for the test `ID == id` has that ID. -/
theorem found_has_id (l : List ProductService.Product) (id : Int)
    (product : ProductService.Product)
    (h : l.find? (fun product => product.ID == id) = some product) : product.ID = id := by
  have := List.find?_some h
  simpa using this

/-- C11. The mock price table of the order service agrees with the fixture
data of the product service: for every integer `id`, `callProductService id`
succeeds if and only if `getProduct` finds a product with that ID, and then
the price `callProductService` returns is that product's `Price`. -/
theorem prices_agree_with_products (id : Int) :
    ((∃ price, callProductService id = .ok price) ↔
        ∃ product, (ProductService.getProduct (some id)).1 = .json product ∧
          product.ID = id) ∧
      ∀ price product, callProductService id = .ok price →
        (ProductService.getProduct (some id)).1 = .json product → price = product.Price := by
  have hl := lookup_prices_eq_find ProductService.products id
  rw [← prices_eq_products] at hl
  cases hf : ProductService.products.find? (fun product => product.ID == id) with
  | none =>
    rw [hf] at hl
    have hc : callProductService id = .error "product not found" := by
      simp only [callProductService, hl, Option.map_none']
    have hg : (ProductService.getProduct (some id)).1 =
        .error "Product not found" StatusNotFound := by
      simp only [ProductService.getProduct, hf]
    rw [hc, hg]
    simp
  | some found =>
    rw [hf] at hl
    have hid := found_has_id _ id found hf
    have hc : callProductService id = .ok found.Price := by
      simp only [callProductService, hl, Option.map_some']
    have hg : (ProductService.getProduct (some id)).1 = .json found := by
      simp only [ProductService.getProduct, hf]
    rw [hc, hg]
    refine ⟨⟨fun _ => ⟨found, rfl, hid⟩, fun _ => ⟨found.Price, rfl⟩⟩, ?_⟩
    intro price product hp hj
    injection hp with hp
    injection hj with hj
    rw [← hp, ← hj]

end OrderService
